import Mathlib

/-!
Verification of the core of `fabric.py` (Fabric 0.0.1, a Pythonic remote
deployment tool) against its natural-language specification.

The embedding is shallow: Python strings are `List Char`, the global `ENV`
dict is an association list `Env`, Python values that can occur in `ENV` are
the inductive `Value`, and fallible Python code (code that can raise) returns
`Option` or the three-way `Outcome`.  Each definition carries a doc comment
naming the Python function of `fabric.py` it translates.
-/

namespace Fabric

/-- Shorthand turning a Lean string literal into the `List Char` representation
used for Python strings throughout this development. -/
def chars (s : String) : List Char := s.data

/-- Values storable in the Fabric environment dictionary `ENV`.  The initial
`ENV` of `fabric.py` holds strings, ints (`fab_port`), `None` (`fab_user`,
`fab_password`, ...), booleans (`fab_debug`) and — once the user sets
`fab_hosts` — lists of strings. -/
inductive Value where
  | str : List Char → Value
  | int : Int → Value
  | bool : Bool → Value
  | none : Value
  | list : List (List Char) → Value
  deriving DecidableEq, Repr

/-- Python `str(v)`, as applied by a `%(key)s` conversion: strings unchanged,
ints in decimal, `True` / `False` / `None` spelled as in Python, and lists of
strings printed in Python repr form. -/
def strOf : Value → List Char
  | Value.str s => s
  | Value.int n => chars (toString n)
  | Value.bool true => chars "True"
  | Value.bool false => chars "False"
  | Value.none => chars "None"
  | Value.list l =>
      '[' :: ((List.intercalate (chars ", ")
        (l.map (fun s => '\x27' :: (s ++ ['\x27'])))) ++ [']'])

/-- Python truthiness of a `Value`: empty strings, `0`, `False`, `None` and
empty lists are falsy. -/
def truthy : Value → Bool
  | Value.str s => !s.isEmpty
  | Value.int n => decide (n ≠ 0)
  | Value.bool b => b
  | Value.none => false
  | Value.list l => !l.isEmpty

/-- The Fabric environment: the `ENV` dict of `fabric.py`, as an association
list from key (Python string) to `Value`.  Keys are unique by construction of
`insertEnv`. -/
abbrev Env := List (List Char × Value)

/-- Python `ENV[k]` lookup (as an `Option`: `Option.none` models `KeyError`). -/
def lookupEnv (k : List Char) : Env → Option Value
  | [] => Option.none
  | p :: rest => if p.1 = k then some p.2 else lookupEnv k rest

/-- Python `k in ENV`. -/
def containsKey (k : List Char) (env : Env) : Bool :=
  (lookupEnv k env).isSome

/-- Python `ENV[k] = v`: replace the binding of `k` if present, else append. -/
def insertEnv (k : List Char) (v : Value) : Env → Env
  | [] => [(k, v)]
  | p :: rest => if p.1 = k then (k, v) :: rest else p :: insertEnv k v rest

/-!
Eager substitution: Python `s % ENV` with a mapping right operand, as used by
`set`, `require`, `_lazy_format` and others.  A `%(key)s` token is replaced by
`str(ENV[key])`; a `%(key)s` token whose key is absent raises `KeyError`
(modelled as `Option.none`); `%%` yields a literal `%`; any other use of `%`
(incomplete format, unsupported conversion) is modelled as an error as well —
the source only ever relies on the `%(key)s` and `%%` forms.

`eagerAux` is the character-level scanner: first argument `Option.none` means
ordinary scanning, `some acc` means we are inside a `%(` key, with the key
characters read so far in `acc` (reversed).
-/

/-- Scanner for Python `%`-formatting against a mapping (see module note). -/
def eagerAux (env : Env) : Option (List Char) → List Char → Option (List Char)
  | Option.none, [] => some []
  | Option.none, c :: rest =>
      if c = '%' then
        match rest with
        | [] => Option.none
        | c2 :: rest2 =>
            if c2 = '%' then (eagerAux env Option.none rest2).map (fun t => '%' :: t)
            else if c2 = '(' then eagerAux env (some []) rest2
            else Option.none
      else (eagerAux env Option.none rest).map (fun t => c :: t)
  | some _, [] => Option.none
  | some acc, c :: rest =>
      if c = ')' then
        match rest with
        | [] => Option.none
        | c2 :: rest2 =>
            if c2 = 's' then
              match lookupEnv acc.reverse env with
              | some v => (eagerAux env Option.none rest2).map (fun t => strOf v ++ t)
              | Option.none => Option.none
            else Option.none
      else eagerAux env (some (c :: acc)) rest

/-- Python `s % env` (mapping form), total via `Option`: `Option.none` models
a raised `KeyError` / `ValueError`. -/
def eagerFormat (l : List Char) (env : Env) : Option (List Char) :=
  eagerAux env Option.none l

/-- The operation `set` of `fabric.py` (lines 71-91), for a single keyword
argument: a textual value is eagerly expanded against the current `ENV`
(`ENV[k] = v % ENV`) before storage — which raises (here: `Option.none`) when
the expansion does —, any other value is stored as-is. -/
def set (k : List Char) (v : Value) (env : Env) : Option Env :=
  match v with
  | Value.str s => (eagerFormat s env).map (fun s2 => insertEnv k (Value.str s2) env)
  | other => some (insertEnv k other env)

/-- The operation `get` of `fabric.py` (lines 93-99):
`return name in ENV and ENV[name] or None`, translated with Python's
short-circuit `and` / `or` on truthiness. -/
def get (name : List Char) (env : Env) : Value :=
  let conj : Value :=
    if containsKey name env then (lookupEnv name env).getD Value.none
    else Value.bool false
  if truthy conj then conj else Value.none

/-!
Lazy substitution: `_lazy_format` of `fabric.py` (lines 344-353):

    def _lazy_format(string, env=ENV):
        suber = re.compile(r'\$\((?P<var>\w+?)\)')
        def replacer_fn(match):
            var = match.group('var')
            if var in env:
                return _lazy_format(env[var] % env, env)
            else:
                return match.group(0)
        return re.sub(suber, replacer_fn, string % env)

`scanAux` models the single `re.sub` pass over `string % env`: it scans left
to right for tokens `$(w)` with `w` a non-empty run of word characters; a
token whose variable is bound resolves through the `resolve` argument (the
recursive `_lazy_format(env[var] % env, env)` call), a token whose variable
is unbound stays verbatim, and text at which the token pattern fails to match
is passed through unchanged, exactly as `re.sub` leaves non-matching
positions.  Replacement text is not rescanned by the same pass, matching
`re.sub`.  The first argument is the scanner state: `Option.none` is ordinary
scanning, `some acc` means `$(` has been read and `acc` holds the (reversed)
word characters read since.

`subLazy` ties the recursive knot with explicit fuel: each nested resolution
of a bound variable consumes one unit.  The Python original has no such
bound — it recurses for every nested reference — so `subLazy fuel` returning
`Option.none` for every `fuel` models a call that fails to terminate at any
finite recursion depth (Python: `RecursionError` at the interpreter limit).
`Option.none` also models raised errors: a `KeyError` from `% env`, or the
`TypeError` from `env[var] % env` when `env[var]` is not a string.
-/

/-- Regex `\w`: ASCII word characters as matched against these all-ASCII
command strings (`isAlphanum` or underscore). -/
def isWordChar (c : Char) : Bool := c.isAlphanum || c = '_'

/-- One `re.sub` pass of `_lazy_format` (see module note).  The scanner state
comes last: `Option.none` is ordinary scanning, `some acc` means `$(` has been
read with the word characters read since in `acc` (reversed). -/
def scanAux (env : Env) (resolve : List Char → Option (List Char)) :
    List Char → Option (List Char) → Option (List Char)
  | [], Option.none => some []
  | '$' :: '(' :: rest2, Option.none => scanAux env resolve rest2 (some [])
  | c :: rest, Option.none =>
      -- either an ordinary character, or a `$` not followed by `(` (at which
      -- no token can match); `re.sub` passes it through and moves on
      (scanAux env resolve rest Option.none).map (fun t => c :: t)
  | [], some acc => some ('$' :: '(' :: acc.reverse)
  | ')' :: rest, some acc =>
      if acc.isEmpty then
        -- `$()` never matches `\$\(\w+?\)`; it is left verbatim
        (scanAux env resolve rest Option.none).map (fun t => '$' :: '(' :: ')' :: t)
      else
        match lookupEnv acc.reverse env with
        | some (Value.str v) =>
            match resolve v with
            | some r => (scanAux env resolve rest Option.none).map (fun t => r ++ t)
            | Option.none => Option.none
        | some _ => Option.none
        | Option.none =>
            (scanAux env resolve rest Option.none).map
              (fun t => '$' :: '(' :: (acc.reverse ++ (')' :: t)))
  | '$' :: '(' :: rest2, some acc =>
      -- the token pattern failed (a `$` is not a word character); the
      -- consumed text is emitted verbatim and a fresh token starts here
      (scanAux env resolve rest2 (some [])).map
        (fun t => '$' :: '(' :: (acc.reverse ++ t))
  | c :: rest, some acc =>
      if isWordChar c then scanAux env resolve rest (some (c :: acc))
      else
        -- the token pattern failed at `c`; everything consumed is emitted
        -- verbatim and scanning resumes (no token can start before the
        -- next `$(`, which the earlier pattern alternatives catch)
        (scanAux env resolve rest Option.none).map
          (fun t => '$' :: '(' :: (acc.reverse ++ (c :: t)))

/-- The recursive step of `_lazy_format`: a bound variable's value `v` is
expanded as `_lazy_format(v % env, env)`, whose own body applies `% env` once
more before scanning; `next` is the next-depth scan. -/
def resolveStep (env : Env) (next : List Char → Option (List Char))
    (v : List Char) : Option (List Char) :=
  (eagerFormat v env).bind (fun e1 => (eagerFormat e1 env).bind next)

/-- Fuel-indexed scanning of `_lazy_format`: at fuel `0` any attempt to
resolve a bound variable fails (the recursion-depth budget is exhausted); at
fuel `f+1` it recurses with fuel `f`. -/
def subLazy : Nat → Env → List Char → Option (List Char)
  | 0, env, l => scanAux env (fun _ => Option.none) l Option.none
  | Nat.succ f, env, l => scanAux env (resolveStep env (subLazy f env)) l Option.none

/-- `_lazy_format(string, env)` at recursion-depth budget `fuel`:
`re.sub(suber, replacer_fn, string % env)`. -/
def lazyFormat (fuel : Nat) (l : List Char) (env : Env) : Option (List Char) :=
  (eagerFormat l env).bind (fun s => subLazy fuel env s)

/-!
Operations with process-level effects.  `Outcome α` is the result of a piece
of Python code that either returns normally (`ok`), prints diagnostics and
calls `exit(1)` (`abort`, carrying the printed lines), or raises an uncaught
exception such as `KeyError` (`err`).
-/

/-- Result of Python code that can return, `exit(1)` with diagnostics, or
raise. -/
inductive Outcome (α : Type) where
  | ok : α → Outcome α
  | abort : List (List Char) → Outcome α
  | err : Outcome α
  deriving DecidableEq

/-- The operation `require` of `fabric.py` (lines 101-132): returns at once
when `var` is bound; otherwise formats and prints a diagnostic whose template
references `fab_cur_command` against `ENV` (so the formatting itself raises
`KeyError` when no command is executing), prints the optional `used_for` and
`provided_by` lines, and exits with status 1. -/
def require (var : List Char) (used_for : Option (List Char))
    (provided_by : Option (List (List Char))) (env : Env) : Outcome Unit :=
  if containsKey var env then Outcome.ok ()
  else
    match eagerFormat ((chars "The \x27%(fab_cur_command)s\x27 command requires a \x27")
        ++ var ++ (chars "\x27 variable.")) env with
    | Option.none => Outcome.err
    | some msg =>
        Outcome.abort ([msg]
          ++ (match used_for with
              | some u => [(chars "This variable is used for ") ++ u]
              | Option.none => [])
          ++ (match provided_by with
              | some cmds =>
                  [chars "Get the variable by running one of these commands:",
                   '\t' :: List.intercalate (chars "\n\t") cmds]
              | Option.none => []))

/-!
The connection pool and the dispatcher.  A session is modelled as its host
name paired with an open/closed flag (`paramiko.SSHClient` details are
outside the claims); `CONNECTIONS` is a `List Sess`.
-/

/-- One entry of `CONNECTIONS`: the host name and whether the session is
still open (`client.close()` flips the flag). -/
abbrev Sess := List Char × Bool

/-- One invocation of the operation function `fn` handed to `_on_hosts_do`:
the host argument, the session (client) argument, and the environment
argument the call receives. -/
structure Invocation where
  host : List Char
  sess : Bool
  env : Env
  deriving DecidableEq

/-- `_connect` of `fabric.py` (lines 310-332): checks `fab_hosts` is set
(`_check_fab_hosts`, aborting with its three-line message otherwise), then
opens one session per host in order and appends it to the pool, aborting when
the host list was empty.  The password prompt, the host-key policy and the
SSH handshake details (and the reads of `fab_port`, `fab_user`, `fab_pkey`,
`fab_key_filename`, which the claims never exercise with absent keys or
unconvertible values) are abstracted: every configured host yields an open
session.  A non-list `fab_hosts` value is not iterable host-wise as the code
expects and is modelled as a raised error. -/
def connect (env : Env) : Outcome (List Sess) :=
  match lookupEnv (chars "fab_hosts") env with
  | Option.none =>
      Outcome.abort
        [chars "Fabric requires a fab_hosts variable.",
         chars "Please set it in your fabfile.",
         chars "Example: set(fab_hosts=[\x27node1.com\x27, \x27node2.com\x27])"]
  | some (Value.list hosts) =>
      if hosts.isEmpty then
        Outcome.abort
          [chars "The fab_hosts list was empty.",
           chars "Please specify some hosts to connect to."]
      else Outcome.ok (hosts.map (fun h => (h, true)))
  | some _ => Outcome.err

/-- The fanout branch of `_on_hosts_do` (lines 364-374).  The loop body
rebinds the function-local variables `host`, `client` and `env` at every
iteration and spawns a thread whose body is `lambda: fn(host, client, env,
*args)` — a closure over those shared variables, read only when the thread
body actually runs (Python late binding).  `sched i` says during which loop
iteration the body of the `i`-th spawned thread reads them; it is clamped to
`[i, n-1]` because thread `i` starts only after iteration `i`'s assignments
and the variables are last assigned at iteration `n-1`.  The identity
schedule models every thread body running before the loop moves on; other
schedules are equally possible executions.  All spawned threads are joined,
so exactly `n` invocations occur before the dispatch returns. -/
def fanoutInvocations (conns : List Sess) (env : Env) (sched : Nat → Nat) :
    List Invocation :=
  (List.range conns.length).map (fun i =>
    let s := conns.getD (min (max i (sched i)) (conns.length - 1)) ([], true)
    Invocation.mk s.1 s.2 (insertEnv (chars "fab_host") (Value.str s.1) env))

/-- `_on_hosts_do` of `fabric.py` (lines 355-383): reads `ENV['fab_mode']`
(a `KeyError` when absent), then dispatches fanout (threaded, with the
late-binding schedule `sched`), rolling (one sequential call per pool entry,
in pool order, each returning before the next starts — the result list is in
invocation order), or aborts naming the two supported modes.  The operation
function's per-call success or failure is not inspected by either loop, so no
entry is skipped on account of an earlier entry's result. -/
def onHostsDo (conns : List Sess) (env : Env) (sched : Nat → Nat) :
    Outcome (List Invocation) :=
  match lookupEnv (chars "fab_mode") env with
  | Option.none => Outcome.err
  | some strategy =>
      if strategy = Value.str (chars "fanout") then
        Outcome.ok (fanoutInvocations conns env sched)
      else if strategy = Value.str (chars "rolling") then
        Outcome.ok (conns.map (fun s =>
          Invocation.mk s.1 s.2 (insertEnv (chars "fab_host") (Value.str s.1) env)))
      else
        Outcome.abort
          [(chars "Unsupported fab_mode: ") ++ strOf strategy,
           chars "Supported modes are: fanout, rolling"]

/-- Result of one `run`/`sudo`/`put` call: which hosts had a connection
newly established during the call, and how the dispatch ended. -/
structure RunResult where
  established : List (List Char)
  outcome : Outcome (List Invocation)
  deriving DecidableEq

/-- The operation `run` of `fabric.py` (lines 139-142) — `sudo` (144-147) and
`put` (134-137) have the identical shape: `if not CONNECTIONS: _connect()`
followed by `_on_hosts_do(...)`.  The pool is connected lazily before the
dispatch-mode check ever runs; an abort arising inside `_connect` or
`_on_hosts_do` ends the call. -/
def run (env : Env) (pool : List Sess) (sched : Nat → Nat) : RunResult :=
  if pool.isEmpty then
    match connect env with
    | Outcome.ok newPool =>
        { established := newPool.map (fun s => s.1),
          outcome := onHostsDo newPool env sched }
    | Outcome.abort m => { established := [], outcome := Outcome.abort m }
    | Outcome.err => { established := [], outcome := Outcome.err }
  else { established := [], outcome := onHostsDo pool env sched }

/-- `_disconnect` of `fabric.py` (lines 334-337): closes every client in
`CONNECTIONS`; the list itself is not cleared, so every (host, client) entry
survives teardown with its session closed. -/
def disconnectAll (pool : List Sess) : List Sess :=
  pool.map (fun s => (s.1, false))

/-!
Lemma layer: behavior of the two scanners on token-free text, on key/word
runs, and at closing parentheses, plus association-list facts.
-/

/-- Characters other than `%` pass through the eager scanner. -/
theorem eagerAux_cons_clean (env : Env) (c : Char) (l : List Char) (h : c ≠ '%') :
    eagerAux env Option.none (c :: l) = (eagerAux env Option.none l).map (fun t => c :: t) := by
  rw [eagerAux.eq_def]
  simp [h]

/-- A `%`-free prefix is emitted unchanged by eager formatting. -/
theorem eager_append_clean (env : Env) (l2 : List Char) :
    ∀ l1 : List Char, (∀ c ∈ l1, c ≠ '%') →
      eagerFormat (l1 ++ l2) env = (eagerFormat l2 env).map (fun t => l1 ++ t) := by
  intro l1
  induction l1 with
  | nil => intro _; simp [eagerFormat]
  | cons c l1 ih =>
      intro h
      rw [List.cons_append, eagerFormat, eagerAux_cons_clean env c _ (h c (by simp))]
      rw [show eagerAux env Option.none (l1 ++ l2) = eagerFormat (l1 ++ l2) env from rfl]
      rw [ih (fun x hx => h x (by simp [hx]))]
      cases eagerFormat l2 env <;> simp

/-- Eager formatting leaves a `%`-free string unchanged. -/
theorem eager_clean (env : Env) (l : List Char) (h : ∀ c ∈ l, c ≠ '%') :
    eagerFormat l env = some l := by
  have h2 := eager_append_clean env [] l h
  simpa [eagerFormat, eagerAux] using h2

/-- Inside a `%(` key, characters other than `)` are accumulated. -/
theorem eagerAux_collect_step (env : Env) (acc : List Char) (c : Char) (l : List Char)
    (h : c ≠ ')') :
    eagerAux env (some acc) (c :: l) = eagerAux env (some (c :: acc)) l := by
  rw [eagerAux.eq_def]
  simp [h]

/-- A `)`-free run of characters is consumed whole into the pending key. -/
theorem eager_collect (env : Env) (rest : List Char) :
    ∀ (k : List Char) (acc : List Char), (∀ c ∈ k, c ≠ ')') →
      eagerAux env (some acc) (k ++ rest) = eagerAux env (some (k.reverse ++ acc)) rest := by
  intro k
  induction k with
  | nil => intro acc _; simp
  | cons c k ih =>
      intro acc h
      rw [List.cons_append, eagerAux_collect_step env acc c _ (h c (by simp))]
      rw [ih (c :: acc) (fun x hx => h x (by simp [hx]))]
      simp

/-- Closing a pending key at `)s` looks the key up and substitutes. -/
theorem eager_close (env : Env) (acc rest : List Char) :
    eagerAux env (some acc) (')' :: 's' :: rest) =
      match lookupEnv acc.reverse env with
      | some v => (eagerAux env Option.none rest).map (fun t => strOf v ++ t)
      | Option.none => Option.none := rfl

/-- Word characters are none of the scanner-significant characters. -/
theorem wordChar_ne (c : Char) (h : isWordChar c = true) :
    c ≠ '$' ∧ c ≠ ')' ∧ c ≠ '(' ∧ c ≠ '%' := by
  refine ⟨?_, ?_, ?_, ?_⟩ <;> · rintro rfl; exact absurd h (by decide)

/-- Characters other than `$` pass through the lazy scanner. -/
theorem scanAux_cons_clean (env : Env) (res : List Char → Option (List Char)) (c : Char)
    (l : List Char) (h : c ≠ '$') :
    scanAux env res (c :: l) Option.none = (scanAux env res l Option.none).map (fun t => c :: t) := by
  rw [scanAux.eq_def]
  rcases l with _ | ⟨c2, l2⟩
  · simp [h]
  · split
    all_goals simp_all

/-- A `$`-free prefix is emitted unchanged by the lazy scanner. -/
theorem scan_append_clean (env : Env) (res : List Char → Option (List Char)) (l2 : List Char) :
    ∀ l1 : List Char, (∀ c ∈ l1, c ≠ '$') →
      scanAux env res (l1 ++ l2) Option.none =
        (scanAux env res l2 Option.none).map (fun t => l1 ++ t) := by
  intro l1
  induction l1 with
  | nil => intro _; simp
  | cons c l1 ih =>
      intro h
      rw [List.cons_append, scanAux_cons_clean env res c _ (h c (by simp))]
      rw [ih (fun x hx => h x (by simp [hx]))]
      cases scanAux env res l2 Option.none <;> simp

/-- The lazy scanner leaves a `$`-free string unchanged. -/
theorem scan_clean (env : Env) (res : List Char → Option (List Char)) (l : List Char)
    (h : ∀ c ∈ l, c ≠ '$') :
    scanAux env res l Option.none = some l := by
  have h2 := scan_append_clean env res [] l h
  simpa [scanAux] using h2

/-- Inside a `$(` token, word characters are accumulated. -/
theorem scanAux_collect_step (env : Env) (res : List Char → Option (List Char))
    (acc : List Char) (c : Char) (l : List Char) (h : isWordChar c = true) :
    scanAux env res (c :: l) (some acc) = scanAux env res l (some (c :: acc)) := by
  obtain ⟨h1, h2, -, -⟩ := wordChar_ne c h
  rw [scanAux.eq_def]
  rcases l with _ | ⟨c2, l2⟩
  · simp [h, h1, h2]
  · split
    all_goals simp_all

/-- A run of word characters is consumed whole into the pending token. -/
theorem scan_collect (env : Env) (res : List Char → Option (List Char)) (rest : List Char) :
    ∀ (k : List Char) (acc : List Char), (∀ c ∈ k, isWordChar c = true) →
      scanAux env res (k ++ rest) (some acc) =
        scanAux env res rest (some (k.reverse ++ acc)) := by
  intro k
  induction k with
  | nil => intro acc _; simp
  | cons c k ih =>
      intro acc h
      rw [List.cons_append, scanAux_collect_step env res acc c _ (h c (by simp))]
      rw [ih (c :: acc) (fun x hx => h x (by simp [hx]))]
      simp

/-- Closing a non-empty pending token at `)` resolves or keeps it. -/
theorem scan_close (env : Env) (res : List Char → Option (List Char))
    (a : Char) (as rest : List Char) :
    scanAux env res (')' :: rest) (some (a :: as)) =
      match lookupEnv (a :: as).reverse env with
      | some (Value.str v) =>
          match res v with
          | some r => (scanAux env res rest Option.none).map (fun t => r ++ t)
          | Option.none => Option.none
      | some _ => Option.none
      | Option.none =>
          (scanAux env res rest Option.none).map
            (fun t => '$' :: '(' :: ((a :: as).reverse ++ (')' :: t))) := rfl

/-- Updating one key does not change the binding of another. -/
theorem lookup_insert_ne (k k2 : List Char) (v : Value) (h : k2 ≠ k) :
    ∀ env : Env, lookupEnv k (insertEnv k2 v env) = lookupEnv k env := by
  intro env
  induction env with
  | nil => simp [insertEnv, lookupEnv, h]
  | cons p rest ih =>
      by_cases hp : p.1 = k2
      · rw [insertEnv, if_pos hp, lookupEnv, if_neg h, lookupEnv, hp, if_neg h]
      · rw [insertEnv, if_neg hp, lookupEnv, lookupEnv]
        by_cases hk : p.1 = k
        · rw [if_pos hk, if_pos hk]
        · rw [if_neg hk, if_neg hk, ih]

/-- `set` always stores through `insertEnv` when it succeeds. -/
theorem set_shape (k : List Char) (v : Value) (env env2 : Env)
    (h : set k v env = some env2) : ∃ w, env2 = insertEnv k w env := by
  rcases v with s | n | b | _ | l
  case str =>
    simp only [set] at h
    rcases he : eagerFormat s env with _ | s2 <;> rw [he] at h
    · simp at h
    · simp only [Option.map] at h
      exact ⟨Value.str s2, (Option.some_inj.mp h).symm⟩
  all_goals
    simp only [set] at h
    exact ⟨_, (Option.some_inj.mp h).symm⟩

/-!
Claims C2 and C3: the environment-store operations `get` and `set`.
-/

/-- Claim C2 (counterexample): the claim says `get(name)` returns the value
stored under `name` whenever `name` is present.  With the stored value
`False` — the initial environment's own `fab_debug` value — the
`name in ENV and ENV[name] or None` idiom returns `None` instead of the
stored `False`. -/
theorem claim_C2_counterexample :
    lookupEnv (chars "fab_debug") [(chars "fab_debug", Value.bool false)]
        = some (Value.bool false)
    ∧ get (chars "fab_debug") [(chars "fab_debug", Value.bool false)] ≠ Value.bool false
    ∧ get (chars "fab_debug") [(chars "fab_debug", Value.bool false)] = Value.none := by
  decide

/-- Claim C2 (amended): `get(name)` returns the stored value when `name` is
present with a truthy value, and returns the absent sentinel `None` when the
name is absent or its stored value is falsy; `get` never raises (it is a
total function into `Value`). -/
theorem claim_C2 (name : List Char) (env : Env) :
    (∀ v, lookupEnv name env = some v →
        get name env = (if truthy v then v else Value.none))
    ∧ (lookupEnv name env = Option.none → get name env = Value.none) := by
  constructor
  · intro v h
    rw [get, containsKey, h]
    simp
  · intro h
    rw [get, containsKey, h]
    simp [truthy]

/-- Claim C2 (witness): a present, truthy binding is returned as stored. -/
theorem claim_C2_witness :
    get (chars "x") [(chars "x", Value.str (chars "v"))] = Value.str (chars "v") := by
  have h := (claim_C2 (chars "x") [(chars "x", Value.str (chars "v"))]).1
    (Value.str (chars "v")) (by decide)
  rw [h]
  decide

/-- Claim C3 (counterexample): the claim says a `%(key)s` token whose key is
not present is left as-is in the stored value and `set` does not fail on it.
On `set(x="%(missing)s")` against an empty environment the code instead
raises `KeyError` (the eager `v % ENV` expansion fails), storing nothing. -/
theorem claim_C3_counterexample :
    set (chars "x") (Value.str (chars "%(missing)s")) [] = Option.none
    ∧ set (chars "x") (Value.str (chars "%(missing)s")) []
        ≠ some (insertEnv (chars "x") (Value.str (chars "%(missing)s")) []) := by
  decide

/-- Claim C3 (amended): eager expansion happens exactly once at assignment
time against the current snapshot: a `%(r)s` token whose key `r` is present
is replaced by the string form of `r`'s current value; a token referencing an
absent key makes `set` raise a `KeyError` (nothing is stored); and a later
update to a referenced key does not retroactively change the already-stored
value. -/
theorem claim_C3 (env : Env) (k r : List Char) :
    (∀ v, lookupEnv r env = some v → (∀ c ∈ r, c ≠ ')') →
        set k (Value.str ('%' :: '(' :: (r ++ (')' :: 's' :: [])))) env
          = some (insertEnv k (Value.str (strOf v)) env))
    ∧ (lookupEnv r env = Option.none → (∀ c ∈ r, c ≠ ')') →
        set k (Value.str ('%' :: '(' :: (r ++ (')' :: 's' :: [])))) env = Option.none)
    ∧ (∀ v env2, set k v env = some env2 → ∀ k2 v2 env3, k2 ≠ k →
        set k2 v2 env2 = some env3 → lookupEnv k env3 = lookupEnv k env2) := by
  refine ⟨?_, ?_, ?_⟩
  · intro v hv hr
    rw [set]
    have h1 : eagerFormat ('%' :: '(' :: (r ++ (')' :: 's' :: []))) env
        = some (strOf v) := by
      rw [eagerFormat]
      rw [show eagerAux env Option.none ('%' :: '(' :: (r ++ (')' :: 's' :: [])))
          = eagerAux env (some []) (r ++ (')' :: 's' :: [])) from rfl]
      rw [eager_collect env _ r [] hr]
      rw [eager_close]
      simp [hv, eagerAux]
    rw [h1]
    rfl
  · intro hv hr
    rw [set]
    have h1 : eagerFormat ('%' :: '(' :: (r ++ (')' :: 's' :: []))) env = Option.none := by
      rw [eagerFormat]
      rw [show eagerAux env Option.none ('%' :: '(' :: (r ++ (')' :: 's' :: [])))
          = eagerAux env (some []) (r ++ (')' :: 's' :: [])) from rfl]
      rw [eager_collect env _ r [] hr]
      rw [eager_close]
      simp [hv]
    rw [h1]
    rfl
  · intro v env2 h2 k2 v2 env3 hne h3
    obtain ⟨w, rfl⟩ := set_shape k2 v2 env2 env3 h3
    exact lookup_insert_ne k k2 w hne env2

/-- Claim C3 (witness): `%(a)s` expands to the current value of `a` at set
time, and a later update of `a` leaves the stored expansion unchanged. -/
theorem claim_C3_witness :
    set (chars "x") (Value.str (chars "%(a)s")) [(chars "a", Value.str (chars "A"))]
      = some [(chars "a", Value.str (chars "A")), (chars "x", Value.str (chars "A"))]
    ∧ lookupEnv (chars "x")
        (insertEnv (chars "a") (Value.str (chars "B"))
          [(chars "a", Value.str (chars "A")), (chars "x", Value.str (chars "A"))])
      = some (Value.str (chars "A")) := by
  refine ⟨?_, by decide⟩
  have h := (claim_C3 [(chars "a", Value.str (chars "A"))] (chars "x") (chars "a")).1
    (Value.str (chars "A")) (by decide) (by decide)
  rw [show ('%' :: '(' :: (chars "a" ++ (')' :: 's' :: [])))
      = chars "%(a)s" from by decide] at h
  rw [h]
  decide

/-!
Claims C8 and C10: the precondition check `require`.
-/

/-- Claim C8: `require(var)` returns immediately with no side effects when
`var` is present; when `var` is absent (while a command is executing, i.e.
`fab_cur_command` is bound — the case without one is claim C10 — and for a
variable name without `%`, which would derail the `%`-formatting of the
template), it prints a diagnostic naming the current command and the
variable, plus the optional purpose and provider lines, and exits with
status 1. -/
theorem claim_C8 (var : List Char) (uf : Option (List Char))
    (pb : Option (List (List Char))) (env : Env) :
    (containsKey var env = true → require var uf pb env = Outcome.ok ())
    ∧ (∀ cv, lookupEnv var env = Option.none →
        lookupEnv (chars "fab_cur_command") env = some cv →
        (∀ c ∈ var, c ≠ '%') →
        require var uf pb env = Outcome.abort
          ([(chars "The \x27") ++ (strOf cv ++ ((chars "\x27 command requires a \x27")
              ++ (var ++ (chars "\x27 variable."))))]
           ++ (match uf with
               | some u => [(chars "This variable is used for ") ++ u]
               | Option.none => [])
           ++ (match pb with
               | some cmds =>
                   [chars "Get the variable by running one of these commands:",
                    '\t' :: List.intercalate (chars "\n\t") cmds]
               | Option.none => []))) := by
  constructor
  · intro h
    rw [require.eq_def, if_pos h]
  · intro cv h1 h2 hvar
    have hfalse : containsKey var env = false := by rw [containsKey, h1]; rfl
    have htempl : (chars "The \x27%(fab_cur_command)s\x27 command requires a \x27")
        ++ var ++ (chars "\x27 variable.")
        = (chars "The \x27") ++ ('%' :: '(' :: ((chars "fab_cur_command")
            ++ (')' :: 's' :: ((chars "\x27 command requires a \x27")
              ++ (var ++ (chars "\x27 variable.")))))) := by
      have hsplit : chars "The \x27%(fab_cur_command)s\x27 command requires a \x27"
          = (chars "The \x27") ++ ('%' :: '(' :: ((chars "fab_cur_command")
              ++ (')' :: 's' :: (chars "\x27 command requires a \x27")))) := by decide
      rw [hsplit]
      simp [List.append_assoc]
    have hclean : ∀ c ∈ (chars "\x27 command requires a \x27")
        ++ (var ++ (chars "\x27 variable.")), c ≠ '%' := by
      have hm : ∀ c ∈ chars "\x27 command requires a \x27", c ≠ '%' := by decide
      have hs : ∀ c ∈ chars "\x27 variable.", c ≠ '%' := by decide
      intro c hc
      rcases List.mem_append.mp hc with h | h
      · exact hm c h
      · rcases List.mem_append.mp h with h | h
        · exact hvar c h
        · exact hs c h
    have hA : eagerFormat ((chars "\x27 command requires a \x27")
        ++ (var ++ (chars "\x27 variable."))) env
        = some ((chars "\x27 command requires a \x27")
            ++ (var ++ (chars "\x27 variable."))) := eager_clean env _ hclean
    have hB : eagerFormat ('%' :: '(' :: ((chars "fab_cur_command")
        ++ (')' :: 's' :: ((chars "\x27 command requires a \x27")
          ++ (var ++ (chars "\x27 variable.")))))) env
        = some (strOf cv ++ ((chars "\x27 command requires a \x27")
            ++ (var ++ (chars "\x27 variable.")))) := by
      rw [eagerFormat]
      rw [show eagerAux env Option.none ('%' :: '(' :: ((chars "fab_cur_command")
          ++ (')' :: 's' :: ((chars "\x27 command requires a \x27")
            ++ (var ++ (chars "\x27 variable."))))))
          = eagerAux env (some []) ((chars "fab_cur_command")
          ++ (')' :: 's' :: ((chars "\x27 command requires a \x27")
            ++ (var ++ (chars "\x27 variable."))))) from rfl]
      rw [eager_collect env _ (chars "fab_cur_command") [] (by decide)]
      rw [eager_close]
      simp only [List.append_nil, List.reverse_reverse]
      rw [h2]
      rw [show eagerAux env Option.none ((chars "\x27 command requires a \x27")
          ++ (var ++ (chars "\x27 variable.")))
          = eagerFormat ((chars "\x27 command requires a \x27")
          ++ (var ++ (chars "\x27 variable."))) env from rfl]
      rw [hA]
      rfl
    have hC : eagerFormat ((chars "The \x27%(fab_cur_command)s\x27 command requires a \x27")
        ++ var ++ (chars "\x27 variable.")) env
        = some ((chars "The \x27") ++ (strOf cv ++ ((chars "\x27 command requires a \x27")
            ++ (var ++ (chars "\x27 variable."))))) := by
      rw [htempl, eager_append_clean env _ _ (by decide), hB]
      rfl
    rw [require.eq_def, if_neg (by rw [hfalse]; exact Bool.false_ne_true), hC]

/-- Claim C8 (witness): a present variable returns silently; an absent one
aborts with the full three-part diagnostic. -/
theorem claim_C8_witness :
    require (chars "x") Option.none Option.none [(chars "x", Value.int 0)] = Outcome.ok ()
    ∧ require (chars "pn") (some (chars "p")) (some [chars "c1", chars "c2"])
        [(chars "fab_cur_command", Value.str (chars "deploy"))]
      = Outcome.abort [chars "The \x27deploy\x27 command requires a \x27pn\x27 variable.",
                       chars "This variable is used for p",
                       chars "Get the variable by running one of these commands:",
                       chars "\tc1\n\tc2"] := by
  constructor
  · exact (claim_C8 (chars "x") Option.none Option.none
      [(chars "x", Value.int 0)]).1 (by decide)
  · have h := (claim_C8 (chars "pn") (some (chars "p")) (some [chars "c1", chars "c2"])
      [(chars "fab_cur_command", Value.str (chars "deploy"))]).2 (Value.str (chars "deploy"))
      (by decide) (by decide) (by decide)
    rw [h]
    decide

/-- Claim C10: when `var` is absent and no command is executing
(`fab_cur_command` unbound), formatting the abort message itself raises
`KeyError`, so `require` raises instead of printing the diagnostic and
exiting. -/
theorem claim_C10 (var : List Char) (uf : Option (List Char))
    (pb : Option (List (List Char))) (env : Env)
    (h1 : lookupEnv var env = Option.none)
    (h2 : lookupEnv (chars "fab_cur_command") env = Option.none) :
    require var uf pb env = Outcome.err := by
  have hfalse : containsKey var env = false := by rw [containsKey, h1]; rfl
  have htempl : (chars "The \x27%(fab_cur_command)s\x27 command requires a \x27")
      ++ var ++ (chars "\x27 variable.")
      = (chars "The \x27") ++ ('%' :: '(' :: ((chars "fab_cur_command")
          ++ (')' :: 's' :: ((chars "\x27 command requires a \x27")
            ++ (var ++ (chars "\x27 variable.")))))) := by
    have hsplit : chars "The \x27%(fab_cur_command)s\x27 command requires a \x27"
        = (chars "The \x27") ++ ('%' :: '(' :: ((chars "fab_cur_command")
            ++ (')' :: 's' :: (chars "\x27 command requires a \x27")))) := by decide
    rw [hsplit]
    simp [List.append_assoc]
  have hB : eagerFormat ('%' :: '(' :: ((chars "fab_cur_command")
      ++ (')' :: 's' :: ((chars "\x27 command requires a \x27")
        ++ (var ++ (chars "\x27 variable.")))))) env = Option.none := by
    rw [eagerFormat]
    rw [show eagerAux env Option.none ('%' :: '(' :: ((chars "fab_cur_command")
        ++ (')' :: 's' :: ((chars "\x27 command requires a \x27")
          ++ (var ++ (chars "\x27 variable."))))))
        = eagerAux env (some []) ((chars "fab_cur_command")
        ++ (')' :: 's' :: ((chars "\x27 command requires a \x27")
          ++ (var ++ (chars "\x27 variable."))))) from rfl]
    rw [eager_collect env _ (chars "fab_cur_command") [] (by decide)]
    rw [eager_close]
    simp only [List.append_nil, List.reverse_reverse]
    rw [h2]
  have hC : eagerFormat ((chars "The \x27%(fab_cur_command)s\x27 command requires a \x27")
      ++ var ++ (chars "\x27 variable.")) env = Option.none := by
    rw [htempl, eager_append_clean env _ _ (by decide), hB]
    rfl
  rw [require.eq_def, if_neg (by rw [hfalse]; exact Bool.false_ne_true), hC]

/-- Claim C10 (witness): `require` on an empty environment raises. -/
theorem claim_C10_witness :
    require (chars "pn") Option.none Option.none [] = Outcome.err :=
  claim_C10 (chars "pn") Option.none Option.none [] (by decide) (by decide)

/-!
Claims C5 and C7: lazy resolution.
-/

/-- Both fuel levels of `subLazy` leave a `$`-free string unchanged. -/
theorem subLazy_clean (f : Nat) (env : Env) (l : List Char) (h : ∀ c ∈ l, c ≠ '$') :
    subLazy f env l = some l := by
  cases f <;> exact scan_clean env _ l h

/-- `scan_close` for any non-empty accumulator. -/
theorem scan_close_ne (env : Env) (res : List Char → Option (List Char))
    (acc rest : List Char) (h : acc ≠ []) :
    scanAux env res (')' :: rest) (some acc) =
      match lookupEnv acc.reverse env with
      | some (Value.str v) =>
          match res v with
          | some r => (scanAux env res rest Option.none).map (fun t => r ++ t)
          | Option.none => Option.none
      | some _ => Option.none
      | Option.none =>
          (scanAux env res rest Option.none).map
            (fun t => '$' :: '(' :: (acc.reverse ++ (')' :: t))) := by
  rcases acc with _ | ⟨a, as⟩
  · exact absurd rfl h
  · exact scan_close env res a as rest

/-- Closing a pending token whose variable is bound to a string delegates to
the resolver. -/
theorem scan_close_resolved (env : Env) (res : List Char → Option (List Char))
    (acc rest v : List Char) (hacc : acc ≠ [])
    (hl : lookupEnv acc.reverse env = some (Value.str v)) :
    scanAux env res (')' :: rest) (some acc) =
      match res v with
      | some r => (scanAux env res rest Option.none).map (fun t => r ++ t)
      | Option.none => Option.none := by
  rw [scan_close_ne env res acc rest hacc, hl]

/-- Closing a pending token whose variable is unbound keeps it verbatim. -/
theorem scan_close_unbound (env : Env) (res : List Char → Option (List Char))
    (acc rest : List Char) (hacc : acc ≠ [])
    (hl : lookupEnv acc.reverse env = Option.none) :
    scanAux env res (')' :: rest) (some acc) =
      (scanAux env res rest Option.none).map
        (fun t => '$' :: '(' :: (acc.reverse ++ (')' :: t))) := by
  rw [scan_close_ne env res acc rest hacc, hl]

/-- One scan of the cyclic example `$(a)` with `a = "$(a)"`: whatever the
nested resolver answers is the whole answer. -/
theorem scan_cyc (res : List Char → Option (List Char)) :
    scanAux [(chars "a", Value.str (chars "$(a)"))] res (chars "$(a)") Option.none =
      match res (chars "$(a)") with
      | some r => some (r ++ [])
      | Option.none => Option.none := rfl

/-- No fuel level resolves the self-referential definition. -/
theorem subLazy_cyc :
    ∀ f : Nat, subLazy f [(chars "a", Value.str (chars "$(a)"))] (chars "$(a)")
      = Option.none := by
  intro f
  induction f with
  | zero => decide
  | succ f ih =>
      rw [subLazy, scan_cyc]
      have hstep : resolveStep [(chars "a", Value.str (chars "$(a)"))]
          (subLazy f [(chars "a", Value.str (chars "$(a)"))]) (chars "$(a)")
          = subLazy f [(chars "a", Value.str (chars "$(a)"))] (chars "$(a)") := by
        rw [resolveStep]
        rw [show eagerFormat (chars "$(a)") [(chars "a", Value.str (chars "$(a)"))]
            = some (chars "$(a)") from by decide]
        rw [Option.some_bind]
        rw [show eagerFormat (chars "$(a)") [(chars "a", Value.str (chars "$(a)"))]
            = some (chars "$(a)") from by decide]
        rw [Option.some_bind]
      rw [hstep, ih]

/-- Claim C5: the claim says `_lazy_format` terminates for every input with
recursion depth bounded even on self-referential definitions, failing with a
distinct circular-reference condition.  On the environment binding `a` to
`"$(a)"` the code instead recurses past every finite depth budget: no fuel
level produces a result (the Python original hits the interpreter's
`RecursionError`, which is not a circular-reference condition and not a
bound imposed by the program). -/
theorem claim_C5 :
    ∀ fuel : Nat,
      lazyFormat fuel (chars "$(a)") [(chars "a", Value.str (chars "$(a)"))]
        = Option.none := by
  intro fuel
  rw [lazyFormat]
  rw [show eagerFormat (chars "$(a)") [(chars "a", Value.str (chars "$(a)"))]
      = some (chars "$(a)") from by decide]
  rw [Option.some_bind]
  exact subLazy_cyc fuel

/-- Claim C7 (counterexample): the claim says resolving a string containing
no lazy `$(...)` tokens is an identity operation.  `_lazy_format` first
applies the eager `string % env` pass, so the `$`-free string `"%(a)s"` is
rewritten to `"A"`, not returned unchanged. -/
theorem claim_C7_counterexample :
    ((chars "%(a)s").all (fun c => c ≠ '$')) = true
    ∧ lazyFormat 0 (chars "%(a)s") [(chars "a", Value.str (chars "A"))]
        = some (chars "A")
    ∧ chars "A" ≠ chars "%(a)s" := by
  decide

/-- Claim C7 (amended): for a value `pre ++ "$(k1)" ++ post` (with `pre`,
`post` free of both token kinds and `k1` a non-empty word), lazy resolution
substitutes `k1`'s recursively resolved value in place of the token when `k1`
is bound to a string whose resolution succeeds; a `$(name)` token whose name
is unbound is left verbatim; and a string free of lazy `$(...)` tokens AND of
eager `%` sequences resolves to itself (the eager pass rules out plain
identity for strings containing `%`). -/
theorem claim_C7 (env : Env) (f : Nat) (k1 v1 r pre post : List Char) :
    (k1 ≠ [] → (∀ c ∈ k1, isWordChar c = true) →
     (∀ c ∈ pre, c ≠ '$' ∧ c ≠ '%') → (∀ c ∈ post, c ≠ '$' ∧ c ≠ '%') →
     (∀ c ∈ v1, c ≠ '%') →
     lookupEnv k1 env = some (Value.str v1) →
     lazyFormat f v1 env = some r →
     lazyFormat (f + 1) (pre ++ ('$' :: '(' :: (k1 ++ (')' :: post)))) env
       = some (pre ++ (r ++ post)))
    ∧ (k1 ≠ [] → (∀ c ∈ k1, isWordChar c = true) →
       (∀ c ∈ pre, c ≠ '$' ∧ c ≠ '%') → (∀ c ∈ post, c ≠ '$' ∧ c ≠ '%') →
       lookupEnv k1 env = Option.none →
       lazyFormat f (pre ++ ('$' :: '(' :: (k1 ++ (')' :: post)))) env
         = some (pre ++ ('$' :: '(' :: (k1 ++ (')' :: post)))))
    ∧ ((∀ c ∈ pre, c ≠ '$' ∧ c ≠ '%') → lazyFormat f pre env = some pre) := by
  have hword_token : ∀ (hk : ∀ c ∈ k1, isWordChar c = true)
      (hpre : ∀ c ∈ pre, c ≠ '$' ∧ c ≠ '%') (hpost : ∀ c ∈ post, c ≠ '$' ∧ c ≠ '%'),
      eagerFormat (pre ++ ('$' :: '(' :: (k1 ++ (')' :: post)))) env
        = some (pre ++ ('$' :: '(' :: (k1 ++ (')' :: post)))) := by
    intro hk hpre hpost
    apply eager_clean
    intro c hc
    rcases List.mem_append.mp hc with h | h
    · exact (hpre c h).2
    · rcases h with _ | ⟨_, h⟩
      · decide
      · rcases h with _ | ⟨_, h⟩
        · decide
        · rcases List.mem_append.mp h with h | h
          · exact (wordChar_ne c (hk c h)).2.2.2
          · rcases h with _ | ⟨_, h⟩
            · decide
            · exact (hpost c h).2
  refine ⟨?_, ?_, ?_⟩
  · intro hne hk hpre hpost hv hlook hres
    rw [lazyFormat, hword_token hk hpre hpost, Option.some_bind]
    rw [subLazy]
    rw [scan_append_clean env _ _ pre (fun c hc => (hpre c hc).1)]
    rw [show scanAux env (resolveStep env (subLazy f env))
        ('$' :: '(' :: (k1 ++ (')' :: post))) Option.none
        = scanAux env (resolveStep env (subLazy f env)) (k1 ++ (')' :: post)) (some [])
        from rfl]
    rw [scan_collect env _ _ k1 [] hk]
    rw [scan_close_resolved env _ _ _ v1 (by simp [hne]) (by simpa using hlook)]
    have hsub : subLazy f env v1 = some r := by
      rw [lazyFormat, eager_clean env v1 hv, Option.some_bind] at hres
      exact hres
    have hrs : resolveStep env (subLazy f env) v1 = some r := by
      rw [resolveStep, eager_clean env v1 hv, Option.some_bind,
        eager_clean env v1 hv, Option.some_bind]
      exact hsub
    rw [hrs, scan_clean env _ post (fun c hc => (hpost c hc).1)]
    rfl
  · intro hne hk hpre hpost hlook
    rw [lazyFormat, hword_token hk hpre hpost, Option.some_bind]
    cases f with
    | zero =>
        rw [subLazy]
        rw [scan_append_clean env _ _ pre (fun c hc => (hpre c hc).1)]
        rw [show scanAux env (fun _ => Option.none)
            ('$' :: '(' :: (k1 ++ (')' :: post))) Option.none
            = scanAux env (fun _ => Option.none) (k1 ++ (')' :: post)) (some []) from rfl]
        rw [scan_collect env _ _ k1 [] hk]
        rw [scan_close_unbound env _ _ _ (by simp [hne]) (by simpa using hlook)]
        rw [scan_clean env _ post (fun c hc => (hpost c hc).1)]
        simp
    | succ f2 =>
        rw [subLazy]
        rw [scan_append_clean env _ _ pre (fun c hc => (hpre c hc).1)]
        rw [show scanAux env (resolveStep env (subLazy f2 env))
            ('$' :: '(' :: (k1 ++ (')' :: post))) Option.none
            = scanAux env (resolveStep env (subLazy f2 env)) (k1 ++ (')' :: post)) (some [])
            from rfl]
        rw [scan_collect env _ _ k1 [] hk]
        rw [scan_close_unbound env _ _ _ (by simp [hne]) (by simpa using hlook)]
        rw [scan_clean env _ post (fun c hc => (hpost c hc).1)]
        simp
  · intro hpre
    rw [lazyFormat, eager_clean env pre (fun c hc => (hpre c hc).2), Option.some_bind]
    exact subLazy_clean f env pre (fun c hc => (hpre c hc).1)

/-- Claim C7 (witness): `x$(b)y` resolves to `xAy` when `b = "A"`; `$(zz)`
stays verbatim when `zz` is unbound; a token-free string resolves to
itself. -/
theorem claim_C7_witness :
    lazyFormat 1 (chars "x$(b)y") [(chars "b", Value.str (chars "A"))]
        = some (chars "xAy")
    ∧ lazyFormat 1 (chars "x$(zz)y") [] = some (chars "x$(zz)y")
    ∧ lazyFormat 1 (chars "plain") [] = some (chars "plain") := by
  refine ⟨?_, ?_, ?_⟩
  · have h := (claim_C7 [(chars "b", Value.str (chars "A"))] 0
      (chars "b") (chars "A") (chars "A") (chars "x") (chars "y")).1
      (by decide) (by decide) (by decide) (by decide) (by decide) (by decide) (by decide)
    rw [show (chars "x") ++ ('$' :: '(' :: ((chars "b") ++ (')' :: (chars "y"))))
        = chars "x$(b)y" from by decide] at h
    rw [h]
    decide
  · have h := (claim_C7 [] 1 (chars "zz") [] [] (chars "x") (chars "y")).2.1
      (by decide) (by decide) (by decide) (by decide) (by decide)
    rw [show (chars "x") ++ ('$' :: '(' :: ((chars "zz") ++ (')' :: (chars "y"))))
        = chars "x$(zz)y" from by decide] at h
    exact h
  · exact (claim_C7 [] 1 [] [] [] (chars "plain") []).2.2 (by decide)

/-!
Claims C1, C4, C6 and C9: the dispatcher and the connection pool.
-/

/-- `_on_hosts_do` under rolling mode: one invocation per pool entry, in pool
order, each carrying its own host-bound environment copy. -/
theorem onHostsDo_rolling (conns : List Sess) (env : Env) (sched : Nat → Nat)
    (hm : lookupEnv (chars "fab_mode") env = some (Value.str (chars "rolling"))) :
    onHostsDo conns env sched = Outcome.ok (conns.map (fun s =>
      Invocation.mk s.1 s.2 (insertEnv (chars "fab_host") (Value.str s.1) env))) := by
  simp only [onHostsDo, hm]
  simp
  intro h
  exact absurd h (by decide)

/-- `_on_hosts_do` under any unrecognized string mode: the two-line abort. -/
theorem onHostsDo_unsupported (conns : List Sess) (env : Env) (sched : Nat → Nat)
    (m : List Char)
    (hm : lookupEnv (chars "fab_mode") env = some (Value.str m))
    (h1 : m ≠ chars "fanout") (h2 : m ≠ chars "rolling") :
    onHostsDo conns env sched = Outcome.abort
      [(chars "Unsupported fab_mode: ") ++ m,
       chars "Supported modes are: fanout, rolling"] := by
  simp only [onHostsDo, hm]
  rw [if_neg (by simp [h1]), if_neg (by simp [h2])]
  rfl

/-- Claim C1 (code evaluation at the failing schedule): under fanout the loop
rebinds the shared local variables `host`, `client`, `env` before spawning
each thread, and each thread's `lambda` reads them only when its body runs
(Python late-binding closure capture).  With pool `[(A,·),(B,·)]` and the
schedule in which both thread bodies run during (or after) the second loop
iteration, both invocations receive host `B`'s client and environment: host
`A`'s pair is never invoked and thread 0 runs with another host's binding,
against the claim's "exactly once per (host, connection) pair, each with its
own host bound".  The second conjunct shows the per-host binding the claim
(and the code's per-iteration `env = dict(ENV)` copy) intends does hold under
the favorable schedule in which each body runs before the next iteration;
the join-all barrier (exactly one completed invocation per spawned thread)
holds under every schedule. -/
theorem claim_C1 :
    onHostsDo [(chars "A", true), (chars "B", true)]
        [(chars "fab_mode", Value.str (chars "fanout"))] (fun _ => 1)
      = Outcome.ok
          [Invocation.mk (chars "B") true
             [(chars "fab_mode", Value.str (chars "fanout")),
              (chars "fab_host", Value.str (chars "B"))],
           Invocation.mk (chars "B") true
             [(chars "fab_mode", Value.str (chars "fanout")),
              (chars "fab_host", Value.str (chars "B"))]]
    ∧ onHostsDo [(chars "A", true), (chars "B", true)]
        [(chars "fab_mode", Value.str (chars "fanout"))] (fun i => i)
      = Outcome.ok
          [Invocation.mk (chars "A") true
             [(chars "fab_mode", Value.str (chars "fanout")),
              (chars "fab_host", Value.str (chars "A"))],
           Invocation.mk (chars "B") true
             [(chars "fab_mode", Value.str (chars "fanout")),
              (chars "fab_host", Value.str (chars "B"))]] := by
  decide

/-- Claim C4 (counterexample): the claim says the unsupported-mode abort
happens before any connection is established or used.  With an empty pool,
`run` calls `_connect()` before `_on_hosts_do` ever checks the mode, so a
connection to `h1` is established first and the abort comes after. -/
theorem claim_C4_counterexample :
    run [(chars "fab_mode", Value.str (chars "broadcast")),
         (chars "fab_hosts", Value.list [chars "h1"])] [] (fun i => i)
      = { established := [chars "h1"],
          outcome := Outcome.abort
            [chars "Unsupported fab_mode: broadcast",
             chars "Supported modes are: fanout, rolling"] }
    ∧ [chars "h1"] ≠ ([] : List (List Char)) := by
  decide

/-- Claim C4 (amended): with any dispatch-mode string other than `fanout` or
`rolling`, `run` (and identically `sudo` and `put`) aborts with the
diagnostic listing the two valid modes and invokes the operation on no
connection — the abort precedes any use of a connection; and when the pool
was already populated, no connection is established either.  (With an empty
pool the lazy `_connect` step runs before the mode check and does establish
connections first — the counterexample.) -/
theorem claim_C4 (env : Env) (pool : List Sess) (sched : Nat → Nat) (m : List Char)
    (hm : lookupEnv (chars "fab_mode") env = some (Value.str m))
    (h1 : m ≠ chars "fanout") (h2 : m ≠ chars "rolling") (hp : pool ≠ []) :
    run env pool sched =
      { established := [],
        outcome := Outcome.abort
          [(chars "Unsupported fab_mode: ") ++ m,
           chars "Supported modes are: fanout, rolling"] } := by
  have hpe : pool.isEmpty = false := by
    cases pool
    · exact absurd rfl hp
    · rfl
  rw [run, if_neg (by rw [hpe]; exact Bool.false_ne_true)]
  rw [onHostsDo_unsupported pool env sched m hm h1 h2]

/-- Claim C4 (witness): mode `broadcast` over a populated pool aborts with
the two-mode diagnostic, no connection established, none invoked. -/
theorem claim_C4_witness :
    run [(chars "fab_mode", Value.str (chars "broadcast"))] [(chars "h1", true)]
        (fun i => i)
      = { established := [],
          outcome := Outcome.abort
            [chars "Unsupported fab_mode: broadcast",
             chars "Supported modes are: fanout, rolling"] } := by
  have h := claim_C4 [(chars "fab_mode", Value.str (chars "broadcast"))]
    [(chars "h1", true)] (fun i => i) (chars "broadcast")
    (by decide) (by decide) (by decide) (by decide)
  rw [h]
  decide

/-- Claim C6: rolling dispatch over pool entries `[A, B, C]` invokes the
operation once per (host, connection) pair, strictly in pool order, each
invocation carrying its own host-bound environment copy.  The sequential
loop calls the operation function directly, so the result list's order is
the temporal order and each call returns (all output drained by `_run`'s
joins) before the next begins; the loop ignores each call's result, so no
entry is skipped because of an earlier entry's failure. -/
theorem claim_C6 (a b c : List Char) (sa sb sc : Bool) (env : Env) (sched : Nat → Nat)
    (hm : lookupEnv (chars "fab_mode") env = some (Value.str (chars "rolling"))) :
    onHostsDo [(a, sa), (b, sb), (c, sc)] env sched
      = Outcome.ok
          [Invocation.mk a sa (insertEnv (chars "fab_host") (Value.str a) env),
           Invocation.mk b sb (insertEnv (chars "fab_host") (Value.str b) env),
           Invocation.mk c sc (insertEnv (chars "fab_host") (Value.str c) env)] := by
  rw [onHostsDo_rolling [(a, sa), (b, sb), (c, sc)] env sched hm]
  rfl

/-- Claim C6 (witness): rolling over hosts `h1, h2, h3`. -/
theorem claim_C6_witness :
    onHostsDo [(chars "h1", true), (chars "h2", true), (chars "h3", true)]
        [(chars "fab_mode", Value.str (chars "rolling"))] (fun i => i)
      = Outcome.ok
          [Invocation.mk (chars "h1") true
             [(chars "fab_mode", Value.str (chars "rolling")),
              (chars "fab_host", Value.str (chars "h1"))],
           Invocation.mk (chars "h2") true
             [(chars "fab_mode", Value.str (chars "rolling")),
              (chars "fab_host", Value.str (chars "h2"))],
           Invocation.mk (chars "h3") true
             [(chars "fab_mode", Value.str (chars "rolling")),
              (chars "fab_host", Value.str (chars "h3"))]] := by
  have h := claim_C6 (chars "h1") (chars "h2") (chars "h3") true true true
    [(chars "fab_mode", Value.str (chars "rolling"))] (fun i => i) (by decide)
  rw [h]
  decide

/-- Claim C9: `_disconnect` closes every session but removes no (host,
client) entry from the pool, so a populated pool stays non-empty after
teardown; a subsequent `run` (or `sudo` / `put`) then sees the non-empty
pool, skips `_connect` (establishes nothing), and dispatches one invocation
per already-closed session. -/
theorem claim_C9 (pool : List Sess) (env : Env) (sched : Nat → Nat)
    (hp : pool ≠ [])
    (hm : lookupEnv (chars "fab_mode") env = some (Value.str (chars "rolling"))) :
    (disconnectAll pool).length = pool.length
    ∧ (∀ s ∈ disconnectAll pool, s.2 = false)
    ∧ disconnectAll pool ≠ []
    ∧ (run env (disconnectAll pool) sched).established = []
    ∧ (run env (disconnectAll pool) sched).outcome
        = Outcome.ok (pool.map (fun s =>
            Invocation.mk s.1 false
              (insertEnv (chars "fab_host") (Value.str s.1) env))) := by
  have hne : disconnectAll pool ≠ [] := by
    simp [disconnectAll, hp]
  have hpe : (disconnectAll pool).isEmpty = false := by
    cases hd : disconnectAll pool
    · exact absurd hd hne
    · rfl
  have hrun : run env (disconnectAll pool) sched =
      { established := [],
        outcome := onHostsDo (disconnectAll pool) env sched } := by
    rw [run, if_neg (by rw [hpe]; exact Bool.false_ne_true)]
  refine ⟨by simp [disconnectAll], by simp [disconnectAll], hne, by rw [hrun], ?_⟩
  rw [hrun, onHostsDo_rolling (disconnectAll pool) env sched hm]
  simp [disconnectAll, List.map_map]

/-- Claim C9 (witness): a torn-down two-host pool is still dispatched over,
with both sessions closed and nothing re-established. -/
theorem claim_C9_witness :
    (run [(chars "fab_mode", Value.str (chars "rolling"))]
        (disconnectAll [(chars "h1", true), (chars "h2", true)]) (fun i => i)).established
      = []
    ∧ (run [(chars "fab_mode", Value.str (chars "rolling"))]
        (disconnectAll [(chars "h1", true), (chars "h2", true)]) (fun i => i)).outcome
      = Outcome.ok
          [Invocation.mk (chars "h1") false
             [(chars "fab_mode", Value.str (chars "rolling")),
              (chars "fab_host", Value.str (chars "h1"))],
           Invocation.mk (chars "h2") false
             [(chars "fab_mode", Value.str (chars "rolling")),
              (chars "fab_host", Value.str (chars "h2"))]] := by
  have h := claim_C9 [(chars "h1", true), (chars "h2", true)]
    [(chars "fab_mode", Value.str (chars "rolling"))] (fun i => i)
    (by decide) (by decide)
  refine ⟨h.2.2.2.1, ?_⟩
  rw [h.2.2.2.2]
  decide

end Fabric
